import Mathlib

/-!
Verification of the GCS storage layer of the keepsake repository
(`cli/pkg/storage/gcs.go`): prefix normalization, the delimited and
recursive listings, the streaming recursive lister, `List`, `Get`,
`Put`/`PutDirectory`, the local-path computation of `GetDirectory`, and
the bounded concurrent `applyRecursive` engine.

Go strings are embedded as Lean `String` (a structure holding a
`List Char`), and every string operation the Go code uses
(`strings.HasSuffix`, `strings.TrimPrefix`, `strings.HasPrefix`,
`filepath.Base`, `filepath.Clean`, `filepath.Join`, `filepath.Rel`) is
defined here on the underlying character lists so that everything
computes by `rfl`/`decide`.
-/

namespace Keepsake

/-- Go `strings.HasPrefix(s, p)` on character lists: `p` is a literal
leading substring of `s`. -/
def hasPfxCL (s p : List Char) : Bool :=
  p.isPrefixOf s

/-- Go `strings.HasSuffix(s, sfx)` on character lists. -/
def hasSuffixCL (s sfx : List Char) : Bool :=
  sfx.isSuffixOf s

/-- Go `strings.TrimPrefix(s, p)` on character lists: removes exactly one
leading occurrence of `p`, if present. -/
def trimPfxCL (s p : List Char) : List Char :=
  if hasPfxCL s p then s.drop p.length else s

/-- The prefix normalization done at the entry of `List` (gcs.go:90-93)
and `listRecursive` (gcs.go:121-124): append a `/` if absent, then
`strings.TrimPrefix` one leading `/`. -/
def normalizeCL (p : List Char) : List Char :=
  trimPfxCL (if hasSuffixCL p ['/'] then p else p ++ ['/']) ['/']

/-- String wrapper for `normalizeCL`, the `dir += "/"`; `dir =
strings.TrimPrefix(dir, "/")` sequence of the Go source. -/
def normalizeDir (dir : String) : String :=
  ⟨normalizeCL dir.data⟩

/-- Go `strings.HasPrefix(s, p)` on `String`s. -/
def goHasPfx (s p : String) : Bool :=
  hasPfxCL s.data p.data

/-! ## The backend iterator

`bucket.Objects(...).Next()` yields object records one at a time and
terminates either with the `iterator.Done` sentinel or with a real
error (after which the iterator is exhausted).  One traversal is
embedded as a list of events consumed in order. -/

/-- One outcome of a `it.Next()` call of the paginated backend iterator. -/
inductive IterEvent
  | item (name : String)
  | failEv
  | doneEv
deriving DecidableEq

/-- The GCS backend's recursive (non-delimited) listing of a bucket whose
keys are `ns` (in backend order) for the query `&storage.Query{Prefix:
dir}`: every key having `dir` as a literal string prefix, followed by the
`iterator.Done` sentinel.  `applyRecursive` (gcs.go:188-190) issues this
query with its `dir` argument unchanged; no normalization happens there. -/
def recursiveEvents (dir : String) (ns : List String) : List IterEvent :=
  (ns.filter (fun k => goHasPfx k dir)).map IterEvent.item ++ [IterEvent.doneEv]

/-! ## The streaming recursive lister (`listRecursive`, gcs.go:119-143)

The loop sends `ListResult{Path: ...}` for every key passing the filter
and, on a non-`Done` iterator error, sends `ListResult{Error: ...}`.
After sending the error result the Go code falls through to
`filter(attrs.Name)` with `attrs == nil` (a non-`Done` error from
`Next` returns a nil `*storage.ObjectAttrs`), so the goroutine panics
on a nil-pointer dereference: nothing further is sent and the channel
is never closed.  The loop is embedded with that exit recorded. -/

/-- One value sent on the `results` channel. -/
inductive ListResult
  | pathRes (p : String)
  | errRes (msg : String)
deriving DecidableEq

/-- How the producing loop of `listRecursive` ends. -/
inductive LoopExit
  | closed
  | panicked
  | running
deriving DecidableEq

/-- The body of `listRecursive` after normalization: everything it sends
on the channel, in order, together with how the loop ends.  `doneEv`
closes the channel; `failEv` emits one error result and then panics on
the nil `attrs`; an empty event list means the producer is still blocked
in `Next`. -/
def listLoop (bucket folder : String) (filter : String → Bool) :
    List IterEvent → List ListResult × LoopExit
  | [] => ([], LoopExit.running)
  | IterEvent.doneEv :: _ => ([], LoopExit.closed)
  | IterEvent.failEv :: _ =>
      ([ListResult.errRes ("Failed to list gs://" ++ bucket ++ "/" ++ folder)],
        LoopExit.panicked)
  | IterEvent.item k :: rest =>
      let r := listLoop bucket folder filter rest
      (if filter k then ListResult.pathRes k :: r.1 else r.1, r.2)

/-- `listRecursive` (gcs.go:119-143): normalizes the folder at entry and
runs the loop over the iterator's events. -/
def listRecursive (bucket folder : String) (filter : String → Bool)
    (evs : List IterEvent) : List ListResult × LoopExit :=
  listLoop bucket (normalizeDir folder) filter evs

/-- `listRecursive` over a fault-free backend whose keys are `ns`: the
iterator events are the recursive listing of the normalized folder. -/
def listRecursiveRun (bucket folder : String) (filter : String → Bool)
    (ns : List String) : List ListResult × LoopExit :=
  listLoop bucket (normalizeDir folder) filter
    (recursiveEvents (normalizeDir folder) ns)

/-- Go `filepath.Base`: strip trailing slashes, then keep everything
after the last slash; `""` gives `"."` and an all-slash path gives `"/"`. -/
def goBase (path : String) : String :=
  if path.data = [] then "."
  else
    let q := (path.data.reverse.dropWhile (fun c => c == '/')).reverse
    let r := (q.reverse.takeWhile (fun c => c != '/')).reverse
    if r = [] then "/" else ⟨r⟩

/-- `MatchFilenamesRecursive` (gcs.go:113-117): `listRecursive` with the
filter `filepath.Base(key) == filename`. -/
def matchFilenamesRecursive (bucket folder filename : String)
    (evs : List IterEvent) : List ListResult × LoopExit :=
  listRecursive bucket folder (fun k => goBase k == filename) evs

/-- Holds when an error result, if any, is the last thing emitted: no
result of any kind (in particular no success `{path}` result) follows an
error result. -/
def errIsTerminal : List ListResult → Bool
  | [] => true
  | ListResult.errRes _ :: rest => rest.isEmpty
  | ListResult.pathRes _ :: rest => errIsTerminal rest

/-! ## The delimited (shallow) listing and `List` (gcs.go:86-111)

With `Delimiter: "/"` the backend yields, for each key under the queried
directory, either a real object record (its `Name` field set, `Prefix`
empty) when the key has no further `/`, or one synthetic directory
record per distinct subdirectory (its `Prefix` field set and, per the
documented GCS contract, every other field including `Name` left empty).
The Go `List` appends `attrs.Name` for every record. -/

/-- The two fields of `storage.ObjectAttrs` that a delimited listing
populates: `Name` for real objects, `Prefix` (field `pfx` here) for
synthetic directory records. -/
structure ObjectAttrs where
  name : String
  pfx : String
deriving DecidableEq

/-- When key `k` under directory `d` lies in a subdirectory, the
synthetic directory record's `Prefix` value: `d` plus the first
component of the remainder plus `/`; `none` when `k` is an immediate
child object of `d`. -/
def subDirOf (d k : String) : Option String :=
  let tail := k.data.drop d.data.length
  if tail.contains '/' then
    some ⟨d.data ++ tail.takeWhile (fun c => c != '/') ++ ['/']⟩
  else none

/-- The records produced by a delimited listing of directory `d` over a
bucket with keys `ns`, with `seen` the synthetic directory records
already produced (each distinct subdirectory is reported once). -/
def shallowListAux (d : String) : List String → List String → List ObjectAttrs
  | [], _ => []
  | k :: rest, seen =>
    if goHasPfx k d then
      match subDirOf d k with
      | none => ⟨k, ""⟩ :: shallowListAux d rest seen
      | some m =>
          if seen.contains m then shallowListAux d rest seen
          else ⟨"", m⟩ :: shallowListAux d rest (m :: seen)
    else shallowListAux d rest seen

/-- The full record sequence of a delimited listing of `d` over keys `ns`. -/
def shallowList (d : String) (ns : List String) : List ObjectAttrs :=
  shallowListAux d ns []

/-- `List` (gcs.go:86-111): normalize `dir`, run the delimited listing,
and collect `attrs.Name` of every record (gcs.go:108). -/
def gcsList (ns : List String) (dir : String) : List String :=
  (shallowList (normalizeDir dir) ns).map ObjectAttrs.name

/-- Key `k` is an immediate child object of directory `d`: it has `d` as
a literal string prefix and no `/` after it. -/
def immediateChild (d k : String) : Prop :=
  goHasPfx k d = true ∧ (k.data.drop d.data.length).contains '/' = false

instance (d k : String) : Decidable (immediateChild d k) :=
  inferInstanceAs (Decidable (_ ∧ _))

/-! ## `Get` (gcs.go:41-59)

`Get` opens a reader on the object; `storage.ErrObjectNotExist` becomes
a `NotExistError`, any other open failure becomes an error carrying the
full remote path `gs://bucket/path`, and a `ReadAll` failure likewise.
On success it returns the stored bytes.  The backend is a key-value
store plus injectable transient open/read faults. -/

/-- Result of the Go `Get`: the bytes, a typed `*NotExistError`, or a
plain wrapped error with its message. -/
inductive GetResult
  | ok (data : List Nat)
  | notExist (msg : String)
  | fail (msg : String)
deriving DecidableEq

/-- The backend as `Get` sees it: the stored objects and the transient
faults, if any, that opening or reading a given key would hit. -/
structure Backend where
  store : String → Option (List Nat)
  openErr : String → Option String
  readErr : String → Option String

/-- What `obj.NewReader` reports for one key. -/
inductive OpenOutcome
  | okData (data : List Nat)
  | objNotExist
  | openFail (e : String)
deriving DecidableEq

/-- The outcome of `obj.NewReader(ctx)` against backend `be`:
`storage.ErrObjectNotExist` exactly when the key is absent (and no
transient fault fires first). -/
def openOutcome (be : Backend) (k : String) : OpenOutcome :=
  match be.openErr k with
  | some e => OpenOutcome.openFail e
  | none =>
    match be.store k with
    | none => OpenOutcome.objNotExist
    | some d => OpenOutcome.okData d

/-- `Get` (gcs.go:41-59). -/
def gcsGet (bucket : String) (be : Backend) (path : String) : GetResult :=
  let pathString := "gs://" ++ bucket ++ "/" ++ path
  match openOutcome be path with
  | OpenOutcome.openFail e =>
      GetResult.fail ("Failed to open " ++ pathString ++ ", got error: " ++ e)
  | OpenOutcome.objNotExist =>
      GetResult.notExist ("Get: path does not exist: " ++ path)
  | OpenOutcome.okData d =>
    match be.readErr path with
    | some e =>
        GetResult.fail ("Failed to read " ++ pathString ++ ", got error: " ++ e)
    | none => GetResult.ok d

/-! ## `Put` and `PutDirectory` (gcs.go:75-83)

Both bodies are `// TODO` followed by `return nil`: no operation is
performed and a nil error is returned.  The bucket contents are carried
explicitly to make "performs no operation" visible. -/

/-- `Put` (gcs.go:75-78): the bucket contents after the call and the
returned error. -/
def gcsPut (store : List (String × List Nat)) (path : String)
    (data : List Nat) : List (String × List Nat) × Option String :=
  (store, none)

/-- `PutDirectory` (gcs.go:80-83): the bucket contents after the call and
the returned error. -/
def gcsPutDirectory (store : List (String × List Nat))
    (localPath storagePath : String) : List (String × List Nat) × Option String :=
  (store, none)

/-! ## `applyRecursive` (gcs.go:184-213)

```go
func (s *GCSStorage) applyRecursive(dir string, concurrency int64,
    fn func(obj *storage.ObjectHandle) error) error {
  sem := semaphore.NewWeighted(concurrency)
  group, ctx := errgroup.WithContext(context.Background())
  it := bucket.Objects(context.TODO(), &storage.Query{Prefix: dir})
  for {
    attrs, err := it.Next()
    if err == iterator.Done { break }
    if err != nil { return err }
    if err := sem.Acquire(ctx, 1); err != nil { return err }
    group.Go(func() error { defer sem.Release(1); return fn(bucket.Object(attrs.Name)) })
  }
  if err := group.Wait(); err != nil { return err }
  return nil
}
```

Embedded as a small-step machine driven by an explicit schedule.  One
state carries the remaining iterator events, the keys of the started
but unfinished `fn` invocations, the semaphore counter, the error
captured by the `errgroup` (the first `fn` invocation to return
non-nil; it also cancels the shared context), the cancellation flag,
the value `applyRecursive` has returned (if it has), and a ghost list
of every key ever submitted.  The `fn` outcome is a pure function
`fails` of the key.  Per the documented `semaphore.Weighted.Acquire`
contract, acquiring may succeed whenever a token is free, and may
return `ctx.Err()` (`context.Canceled`) whenever the context has been
cancelled; both are separate schedulable transitions.  The iterator
and `fn` run on `context.TODO()`, so cancellation affects neither. -/

/-- The Go error values `applyRecursive` can observe: the iterator's
listing error, an error returned by `fn` for some key, and
`context.Canceled` from `sem.Acquire`. -/
inductive GoErr
  | listErr
  | opErr (key : String)
  | ctxCanceled
deriving DecidableEq

/-- Whether the submitting loop is still running or has passed the
`break` of the `iterator.Done` case and sits at `group.Wait()`. -/
inductive Phase
  | looping
  | waiting
deriving DecidableEq

/-- One instant of an `applyRecursive` call. -/
structure ApplyState where
  pending : List IterEvent
  phase : Phase
  inFlight : List String
  tokens : Nat
  firstErr : Option GoErr
  canceled : Bool
  retVal : Option (Option GoErr)
  started : List String
deriving DecidableEq

/-- The state at the top of the loop. -/
def initState (evs : List IterEvent) : ApplyState :=
  ⟨evs, Phase.looping, [], 0, none, false, none, []⟩

/-- The schedulable transitions: one loop iteration of the submitter
(`next`); the submitter's pending `sem.Acquire` returning `ctx.Err()`
(`nextCancel`, possible only once the context is cancelled); one
started `fn` invocation completing (`finish`), allowed also after
`applyRecursive` has returned since nothing joins those goroutines on
the early-return paths; and `group.Wait` returning (`wait`). -/
inductive Step
  | next
  | nextCancel
  | finish (key : String)
  | wait
deriving DecidableEq

/-- One transition of the machine; a transition whose guard does not
hold leaves the state unchanged. -/
def applyStep (n : Int) (fails : String → Bool) (s : ApplyState) :
    Step → ApplyState
  | Step.next =>
    if s.retVal.isSome then s else
    match s.phase, s.pending with
    | Phase.looping, IterEvent.doneEv :: rest =>
        { s with pending := rest, phase := Phase.waiting }
    | Phase.looping, IterEvent.failEv :: _ =>
        { s with retVal := some (some GoErr.listErr) }
    | Phase.looping, IterEvent.item k :: rest =>
        if (s.tokens : Int) < n then
          { s with pending := rest, tokens := s.tokens + 1,
                   inFlight := k :: s.inFlight, started := k :: s.started }
        else s
    | _, _ => s
  | Step.nextCancel =>
    if s.retVal.isSome then s else
    match s.phase, s.pending with
    | Phase.looping, IterEvent.item _ :: _ =>
        if s.canceled then { s with retVal := some (some GoErr.ctxCanceled) }
        else s
    | _, _ => s
  | Step.finish k =>
    if s.inFlight.contains k then
      let s1 := { s with inFlight := s.inFlight.erase k, tokens := s.tokens - 1 }
      if fails k && s.firstErr.isNone then
        { s1 with firstErr := some (GoErr.opErr k), canceled := true }
      else s1
    else s
  | Step.wait =>
    if s.phase = Phase.waiting ∧ s.inFlight = [] ∧ s.retVal = none then
      { s with retVal := some s.firstErr }
    else s

/-- Run `applyRecursive` with concurrency `n` over iterator events `evs`
under schedule `steps`. -/
def runApply (n : Int) (fails : String → Bool) (evs : List IterEvent)
    (steps : List Step) : ApplyState :=
  steps.foldl (applyStep n fails) (initState evs)

/-- `applyRecursive dir n fn` over a fault-free bucket with keys `ns`:
the iterator events are the recursive listing of the raw `dir`
(gcs.go:188-190 queries `Prefix: dir` with no normalization).  `Delete`
(gcs.go:63-72) and `GetDirectory` (gcs.go:146-182) both call this with
`n = 128`. -/
def applyRecursiveRun (dir : String) (n : Int) (fails : String → Bool)
    (ns : List String) (steps : List Step) : ApplyState :=
  runApply n fails (recursiveEvents dir ns) steps

/-! ## The path arithmetic of `GetDirectory` (gcs.go:146-176)

The operation unit computes `relPath, _ := filepath.Rel(storageDir,
obj.ObjectName())` and writes to `localPath := filepath.Join(localDir,
relPath)`.  `filepath.Clean`, `filepath.Join` and `filepath.Rel` are
embedded for slash-separated Unix paths (no volume names). -/

/-- Split a character list on `/` (keeping empty components). -/
def splitCompsAux (cur : List Char) : List Char → List (List Char)
  | [] => [cur.reverse]
  | c :: rest =>
      if c == '/' then cur.reverse :: splitCompsAux [] rest
      else splitCompsAux (c :: cur) rest

/-- The `/`-separated components of a path. -/
def splitComps (l : List Char) : List (List Char) :=
  splitCompsAux [] l

/-- The `..`-resolution of `filepath.Clean`: a `..` pops the previous
component unless that is itself a kept `..`; at the root a `..` is
dropped, and at the start of a relative path it is kept. -/
def resolveDots (rooted : Bool) : List (List Char) → List (List Char) → List (List Char)
  | acc, [] => acc
  | acc, c :: rest =>
    if c == ['.', '.'] then
      match acc.getLast? with
      | some lastC =>
          if lastC == ['.', '.'] then resolveDots rooted (acc ++ [c]) rest
          else resolveDots rooted acc.dropLast rest
      | none =>
          if rooted then resolveDots rooted acc rest
          else resolveDots rooted [c] rest
    else resolveDots rooted (acc ++ [c]) rest

/-- Go `filepath.Clean` on slash paths. -/
def goClean (p : String) : String :=
  if p.data = [] then "."
  else
    let rooted := p.data.head? == some '/'
    let comps := (splitComps p.data).filter
      (fun c => !c.isEmpty && c != ['.'])
    let r := resolveDots rooted [] comps
    if rooted then ⟨'/' :: List.intercalate ['/'] r⟩
    else if r = [] then "."
    else ⟨List.intercalate ['/'] r⟩

/-- Go `filepath.Join` of two elements: join the non-empty elements with
a slash and `Clean` the result; all-empty input gives `""`. -/
def goJoin (a b : String) : String :=
  if a.data = [] then (if b.data = [] then "" else goClean b)
  else if b.data = [] then goClean a
  else goClean ⟨a.data ++ '/' :: b.data⟩

/-- Drop the common leading components of two component lists. -/
def dropCommon : List (List Char) → List (List Char) →
    List (List Char) × List (List Char)
  | a :: as, b :: bs =>
      if a == b then dropCommon as bs else (a :: as, b :: bs)
  | as, bs => (as, bs)

/-- Go `filepath.Rel(base, targ)` on slash paths: `Clean` both; equal
paths give `"."`; mixed rooted/relative inputs fail; otherwise strip
the common leading components, fail if the remaining base starts with
`..`, and return one `..` per remaining base component followed by the
remaining target components. -/
def goRel (base targ : String) : Option String :=
  let b := goClean base
  let t := goClean targ
  if b == t then some "." else
  let brooted := b.data.head? == some '/'
  let trooted := t.data.head? == some '/'
  if brooted != trooted then none else
  let bc := if b == "." then []
    else (splitComps b.data).filter (fun c => !c.isEmpty)
  let tc := if t == "." then []
    else (splitComps t.data).filter (fun c => !c.isEmpty)
  let rests := dropCommon bc tc
  if rests.1.head? == some ['.', '.'] then none else
  some ⟨List.intercalate ['/']
    (List.replicate rests.1.length ['.', '.'] ++ rests.2)⟩

/-- The local file path `GetDirectory` writes a listed key to
(gcs.go:155-159): `filepath.Join(localDir, filepath.Rel(storageDir,
key))`; `none` when `filepath.Rel` fails. -/
def getDirectoryLocalPath (storageDir localDir key : String) : Option String :=
  (goRel storageDir key).map (fun r => goJoin localDir r)

/-- Whether `path` lies inside directory `dir`: same rootedness and the
cleaned components of `dir` lead those of `path`. -/
def underDir (dir path : String) : Bool :=
  let d := goClean dir
  let p := goClean path
  ((d.data.head? == some '/') == (p.data.head? == some '/')) &&
    ((splitComps d.data).filter (fun c => !c.isEmpty)).isPrefixOf
      ((splitComps p.data).filter (fun c => !c.isEmpty))

/-! ## Properties of prefix normalization -/

theorem hasPfxCL_slash_iff (s : List Char) :
    hasPfxCL s ['/'] = true ↔ s.head? = some '/' := by
  cases s with
  | nil => simp [hasPfxCL, List.isPrefixOf]
  | cons a t =>
      simp only [hasPfxCL, List.isPrefixOf, Bool.and_true, beq_iff_eq,
        List.head?_cons, Option.some.injEq]
      exact eq_comm

theorem hasSuffixCL_slash_iff (s : List Char) :
    hasSuffixCL s ['/'] = true ↔ s.getLast? = some '/' := by
  have h : hasSuffixCL s ['/'] = hasPfxCL s.reverse ['/'] := rfl
  rw [h, hasPfxCL_slash_iff, List.head?_reverse]

theorem normalizeCL_fixed (q : List Char) (h1 : q.getLast? = some '/')
    (h2 : q.head? ≠ some '/') : normalizeCL q = q := by
  unfold normalizeCL
  rw [if_pos ((hasSuffixCL_slash_iff q).mpr h1)]
  unfold trimPfxCL
  rw [if_neg (fun hc => h2 ((hasPfxCL_slash_iff q).mp hc))]

theorem normalizeCL_cons_slash (t : List Char)
    (hs : hasSuffixCL ('/' :: t) ['/'] = true) :
    normalizeCL ('/' :: t) = t := by
  unfold normalizeCL
  rw [if_pos hs]
  unfold trimPfxCL
  rw [if_pos ((hasPfxCL_slash_iff ('/' :: t)).mpr rfl)]
  rfl

theorem normalizeCL_cons_slash_nosfx (t : List Char)
    (hs : ¬ hasSuffixCL ('/' :: t) ['/'] = true) :
    normalizeCL ('/' :: t) = t ++ ['/'] := by
  unfold normalizeCL
  rw [if_neg hs]
  unfold trimPfxCL
  rw [if_pos ((hasPfxCL_slash_iff ('/' :: t ++ ['/'])).mpr rfl)]
  rfl

theorem normalizeCL_cons_ns_sfx (a : Char) (t : List Char) (ha : a ≠ '/')
    (hs : hasSuffixCL (a :: t) ['/'] = true) : normalizeCL (a :: t) = a :: t :=
  normalizeCL_fixed _ ((hasSuffixCL_slash_iff _).mp hs) (by simp [ha])

theorem normalizeCL_cons_ns_nosfx (a : Char) (t : List Char) (ha : a ≠ '/')
    (hs : ¬ hasSuffixCL (a :: t) ['/'] = true) :
    normalizeCL (a :: t) = (a :: t) ++ ['/'] := by
  unfold normalizeCL
  rw [if_neg hs]
  unfold trimPfxCL
  rw [if_neg (fun hc => ha (by simpa using (hasPfxCL_slash_iff _).mp hc))]

theorem normalizeCL_idem (p : List Char) (h : hasPfxCL p ['/', '/'] = false) :
    normalizeCL (normalizeCL p) = normalizeCL p := by
  cases p with
  | nil => decide
  | cons a t =>
    by_cases ha : a = '/'
    · subst ha
      have ht : ∀ t3, t ≠ '/' :: t3 := by
        intro t3 hteq
        subst hteq
        simp [hasPfxCL, List.isPrefixOf] at h
      by_cases hs : hasSuffixCL ('/' :: t) ['/'] = true
      · rw [normalizeCL_cons_slash t hs]
        cases t with
        | nil => decide
        | cons b t3 =>
          have hb : b ≠ '/' := fun hbe => ht t3 (by rw [hbe])
          have hlast : (b :: t3).getLast? = some '/' := by
            have h2 := (hasSuffixCL_slash_iff _).mp hs
            rwa [List.getLast?_cons_cons] at h2
          exact normalizeCL_fixed _ hlast (by simp [hb])
      · rw [normalizeCL_cons_slash_nosfx t hs]
        cases t with
        | nil => exact absurd (by decide) hs
        | cons b t3 =>
          have hb : b ≠ '/' := fun hbe => ht t3 (by rw [hbe])
          exact normalizeCL_fixed _ (List.getLast?_concat _) (by simp [hb])
    · by_cases hs : hasSuffixCL (a :: t) ['/'] = true
      · rw [normalizeCL_cons_ns_sfx a t ha hs]
        exact normalizeCL_cons_ns_sfx a t ha hs
      · rw [normalizeCL_cons_ns_nosfx a t ha hs]
        exact normalizeCL_fixed _ (List.getLast?_concat _) (by simp [ha])

/-- C10, counterexample.  The claim states `Normalize(Normalize(p)) =
Normalize(p)` for every string `p`, but `strings.TrimPrefix` strips only
one leading `/`: for `p = "//"` the code maps `"//"` to `"/"` and `"/"`
to `""`, so normalization is not idempotent at `"//"`. -/
theorem c10_normalize_not_idem_counterexample :
    normalizeDir "//" = "/" ∧ normalizeDir (normalizeDir "//") = "" ∧
      (normalizeDir (normalizeDir "//") == normalizeDir "//") = false :=
  ⟨rfl, rfl, rfl⟩

/-- C10, amended.  Normalization (append a trailing `/` if absent, then
`strings.TrimPrefix` one leading `/`), as applied at the entry of `List`
and `listRecursive`, is idempotent on every string that does not begin
with `"//"`; it is not idempotent on strings beginning with `"//"`
(see the counterexample). -/
theorem c10_normalize_idem_amended (p : String) (h : goHasPfx p "//" = false) :
    normalizeDir (normalizeDir p) = normalizeDir p := by
  have hcl : hasPfxCL p.data ['/', '/'] = false := h
  exact congrArg String.mk (normalizeCL_idem p.data hcl)

/-- Witness for C10's amended theorem at `p = "experiments/e1"`. -/
theorem c10_normalize_idem_witness :
    goHasPfx "experiments/e1" "//" = false ∧
      normalizeDir (normalizeDir "experiments/e1") = normalizeDir "experiments/e1" :=
  ⟨by decide, c10_normalize_idem_amended "experiments/e1" (by decide)⟩

/-! ## The streaming lister emits nothing after an error result -/

theorem errIsTerminal_listLoop (b f : String) (filter : String → Bool)
    (evs : List IterEvent) : errIsTerminal (listLoop b f filter evs).1 = true := by
  induction evs with
  | nil => rfl
  | cons e rest ih =>
    cases e with
    | doneEv => rfl
    | failEv => rfl
    | item k => cases hf : filter k <;> simp [listLoop, hf, errIsTerminal, ih]

/-- C5.  In every traversal of the streaming lister (`listRecursive`,
hence `MatchFilenamesRecursive`), whatever the iterator does, an error
result is the last value sent on the results channel: no success
`{path}` result (indeed no result at all) follows it.  In the source
this holds because a non-`Done` iterator error leaves `attrs` nil, so
the statement after the error send panics and the producing loop emits
nothing further. -/
theorem c5_error_is_terminal (bucket folder filename : String)
    (filter : String → Bool) (evs : List IterEvent) :
    errIsTerminal (listRecursive bucket folder filter evs).1 = true ∧
      errIsTerminal (matchFilenamesRecursive bucket folder filename evs).1 = true :=
  ⟨errIsTerminal_listLoop _ _ _ _, errIsTerminal_listLoop _ _ _ _⟩

def tokensInv (n : Int) (s : ApplyState) : Prop :=
  s.tokens = s.inFlight.length ∧ (s.tokens : Int) ≤ max n 0

theorem applyStep_tokensInv (n : Int) (fails : String → Bool) (s : ApplyState)
    (st : Step) (h : tokensInv n s) : tokensInv n (applyStep n fails s st) := by
  obtain ⟨h1, h2⟩ := h
  cases st with
  | next =>
    simp only [applyStep]
    split
    · exact ⟨h1, h2⟩
    · split
      · exact ⟨h1, h2⟩
      · exact ⟨h1, h2⟩
      · rename_i k rest
        split
        · rename_i hlt
          refine ⟨by simp [h1], ?_⟩
          show ((s.tokens + 1 : Nat) : Int) ≤ max n 0
          have hmax : n ≤ max n 0 := le_max_left n 0
          omega
        · exact ⟨h1, h2⟩
      · exact ⟨h1, h2⟩
  | nextCancel =>
    simp only [applyStep]
    split
    · exact ⟨h1, h2⟩
    · split
      · split
        · exact ⟨h1, h2⟩
        · exact ⟨h1, h2⟩
      · exact ⟨h1, h2⟩
  | finish k =>
    simp only [applyStep]
    split
    · rename_i hmem
      have hk : k ∈ s.inFlight := by simpa using hmem
      have hlen : (s.inFlight.erase k).length = s.inFlight.length - 1 :=
        List.length_erase_of_mem hk
      have hpos : 1 ≤ s.inFlight.length := List.length_pos.mpr (by
        intro hnil; rw [hnil] at hk; exact (List.not_mem_nil k) hk)
      split
      · refine ⟨by simp [hlen, h1], ?_⟩
        show ((s.tokens - 1 : Nat) : Int) ≤ max n 0
        omega
      · refine ⟨by simp [hlen, h1], ?_⟩
        show ((s.tokens - 1 : Nat) : Int) ≤ max n 0
        omega
    · exact ⟨h1, h2⟩
  | wait =>
    simp only [applyStep]
    split
    · exact ⟨h1, h2⟩
    · exact ⟨h1, h2⟩

theorem runApply_tokensInv (n : Int) (fails : String → Bool)
    (evs : List IterEvent) (steps : List Step) :
    tokensInv n (runApply n fails evs steps) := by
  suffices h : ∀ s, tokensInv n s → tokensInv n (steps.foldl (applyStep n fails) s) by
    exact h _ ⟨rfl, le_max_right n 0⟩
  intro s hs
  induction steps generalizing s with
  | nil => exact hs
  | cons st rest ih => exact ih _ (applyStep_tokensInv n fails s st hs)

/-! ## Return-path invariants of the applyRecursive machine -/

def retInv (fails : String → Bool) (s : ApplyState) : Prop :=
  (∀ r, s.phase = Phase.waiting → s.retVal = some r →
      s.inFlight = [] ∧ r = s.firstErr) ∧
  (∀ e, s.firstErr = some e → ∃ k, e = GoErr.opErr k ∧ fails k = true) ∧
  (s.retVal = some (some GoErr.ctxCanceled) → s.canceled = true)

theorem initState_retInv (fails : String → Bool) (evs : List IterEvent) :
    retInv fails (initState evs) := by
  refine ⟨?_, ?_, ?_⟩ <;> simp [initState]

theorem applyStep_retInv (n : Int) (fails : String → Bool) (s : ApplyState)
    (st : Step) (h : retInv fails s) : retInv fails (applyStep n fails s st) := by
  obtain ⟨h1, h2, h3⟩ := h
  cases st with
  | next =>
    simp only [applyStep]
    split
    · exact ⟨h1, h2, h3⟩
    · rename_i hnone
      have hrv : s.retVal = none := by
        cases hvv : s.retVal
        · rfl
        · rw [hvv] at hnone; simp at hnone
      split
      · refine ⟨?_, h2, ?_⟩
        · intro r hw hr
          have hr2 : s.retVal = some r := hr
          rw [hrv] at hr2
          exact absurd hr2 (by simp)
        · intro hr
          have hr2 : s.retVal = some (some GoErr.ctxCanceled) := hr
          rw [hrv] at hr2
          exact absurd hr2 (by simp)
      · rename_i hph hpd
        refine ⟨?_, h2, ?_⟩
        · intro r hw hr
          have hw2 : s.phase = Phase.waiting := hw
          rw [hph] at hw2
          exact Phase.noConfusion hw2
        · intro hr
          have hr2 : some (some GoErr.listErr) = some (some GoErr.ctxCanceled) := hr
          simp at hr2
      · rename_i k rest hph hpd
        split
        · refine ⟨?_, h2, ?_⟩
          · intro r hw hr
            have hw2 : s.phase = Phase.waiting := hw
            rw [hph] at hw2
            exact Phase.noConfusion hw2
          · intro hr
            have hr2 : s.retVal = some (some GoErr.ctxCanceled) := hr
            rw [hrv] at hr2
            exact absurd hr2 (by simp)
        · exact ⟨h1, h2, h3⟩
      · exact ⟨h1, h2, h3⟩
  | nextCancel =>
    simp only [applyStep]
    split
    · exact ⟨h1, h2, h3⟩
    · split
      · rename_i k rest hph hpd
        split
        · rename_i hcanc
          refine ⟨?_, h2, fun _ => hcanc⟩
          intro r hw hr
          have hw2 : s.phase = Phase.waiting := hw
          rw [hph] at hw2
          exact Phase.noConfusion hw2
        · exact ⟨h1, h2, h3⟩
      · exact ⟨h1, h2, h3⟩
  | finish k =>
    simp only [applyStep]
    split
    · rename_i hmem
      have hk : k ∈ s.inFlight := by simpa using hmem
      split
      · rename_i hguard
        have hfk : fails k = true := by
          rw [Bool.and_eq_true] at hguard
          exact hguard.1
        refine ⟨?_, ?_, fun _ => rfl⟩
        · intro r hw hr
          have hw2 : s.phase = Phase.waiting := hw
          have hr2 : s.retVal = some r := hr
          obtain ⟨hfl, _⟩ := h1 r hw2 hr2
          rw [hfl] at hk
          exact absurd hk (List.not_mem_nil k)
        · intro e he
          have he2 : some (GoErr.opErr k) = some e := he
          exact ⟨k, by injection he2 with hh; exact hh.symm, hfk⟩
      · refine ⟨?_, h2, h3⟩
        intro r hw hr
        have hw2 : s.phase = Phase.waiting := hw
        have hr2 : s.retVal = some r := hr
        obtain ⟨hfl, _⟩ := h1 r hw2 hr2
        rw [hfl] at hk
        exact absurd hk (List.not_mem_nil k)
    · exact ⟨h1, h2, h3⟩
  | wait =>
    simp only [applyStep]
    split
    · rename_i hguard
      obtain ⟨hph, hfl, hrv⟩ := hguard
      refine ⟨?_, h2, ?_⟩
      · intro r hw hr
        have hr2 : (some s.firstErr : Option (Option GoErr)) = some r := hr
        have : r = s.firstErr := by injection hr2 with hh; exact hh.symm
        exact ⟨hfl, this⟩
      · intro hr
        have hr2 : (some s.firstErr : Option (Option GoErr)) =
            some (some GoErr.ctxCanceled) := hr
        have hfe : s.firstErr = some GoErr.ctxCanceled := by
          injection hr2
        obtain ⟨k2, hk2, _⟩ := h2 _ hfe
        exact GoErr.noConfusion hk2
    · exact ⟨h1, h2, h3⟩

theorem runApply_retInv (n : Int) (fails : String → Bool)
    (evs : List IterEvent) (steps : List Step) :
    retInv fails (runApply n fails evs steps) := by
  suffices h : ∀ s, retInv fails s → retInv fails (steps.foldl (applyStep n fails) s) by
    exact h _ (initState_retInv fails evs)
  intro s hs
  induction steps generalizing s with
  | nil => exact hs
  | cons st rest ih => exact ih _ (applyStep_retInv n fails s st hs)

/-! ## The token bound of the bounded concurrent applier -/

/-- A token is held exactly per started-and-unfinished `fn` invocation,
and the semaphore never holds more than `max n 0` tokens. -/
theorem c3_token_bound (n : Int) (fails : String → Bool)
    (evs : List IterEvent) (steps : List Step) (hn : 1 ≤ n) :
    ((runApply n fails evs steps).tokens
        = (runApply n fails evs steps).inFlight.length ∧
      ((runApply n fails evs steps).inFlight.length : Int) ≤ n) ∧
    (∀ k, (runApply n fails evs steps).inFlight.contains k = true →
      (applyStep n fails (runApply n fails evs steps) (Step.finish k)).tokens
        = (runApply n fails evs steps).tokens - 1) := by
  obtain ⟨h1, h2⟩ := runApply_tokensInv n fails evs steps
  refine ⟨⟨h1, ?_⟩, ?_⟩
  · rw [h1] at h2
    rwa [max_eq_left (by omega : (0 : Int) ≤ n)] at h2
  · intro k hk
    simp only [applyStep]
    rw [if_pos hk]
    split <;> rfl

/-- Witness for C3's theorem: a run with concurrency 3 that has two
invocations in flight, and a completion that releases a token even
though the invocation fails. -/
theorem c3_token_bound_witness :
    ((runApply 3 (fun _ => true)
        [IterEvent.item "a/x", IterEvent.item "a/y", IterEvent.doneEv]
        [Step.next, Step.next]).inFlight.length : Int) ≤ 3 ∧
      (applyStep 3 (fun _ => true)
        (runApply 3 (fun _ => true)
          [IterEvent.item "a/x", IterEvent.item "a/y", IterEvent.doneEv]
          [Step.next, Step.next]) (Step.finish "a/x")).tokens
        = (runApply 3 (fun _ => true)
            [IterEvent.item "a/x", IterEvent.item "a/y", IterEvent.doneEv]
            [Step.next, Step.next]).tokens - 1 :=
  ⟨(c3_token_bound 3 (fun _ => true) _ _ (by decide)).1.2,
   (c3_token_bound 3 (fun _ => true) _ _ (by decide)).2 "a/x" (by decide)⟩

/-- C1, counterexample.  Two real executions of `applyRecursive` refute
the claim.  First (concurrency 2, one object started, then a listing
error): the `return err` at gcs.go:197 runs before `group.Wait()`, so
the call returns the listing error while the started invocation `"k1"`
is still in flight, refuting "blocks until every unit of work it has
started has finished".  Second (the op on `"k1"` fails first, then the
listing fails): the first non-nil error observed is `fn`'s error on
`"k1"` (recorded in `firstErr` and firing cancellation), yet the call
returns the later listing error, refuting "returns the first non-nil
error observed". -/
theorem c1_counterexample :
    ((runApply 2 (fun _ => false) [IterEvent.item "k1", IterEvent.failEv]
        [Step.next, Step.next]).retVal = some (some GoErr.listErr) ∧
      (runApply 2 (fun _ => false) [IterEvent.item "k1", IterEvent.failEv]
        [Step.next, Step.next]).inFlight = ["k1"]) ∧
    ((runApply 2 (fun k => k == "k1") [IterEvent.item "k1", IterEvent.failEv]
        [Step.next, Step.finish "k1", Step.next]).firstErr
          = some (GoErr.opErr "k1") ∧
      (runApply 2 (fun k => k == "k1") [IterEvent.item "k1", IterEvent.failEv]
        [Step.next, Step.finish "k1", Step.next]).retVal
          = some (some GoErr.listErr)) :=
  ⟨⟨by decide, by decide⟩, ⟨by decide, by decide⟩⟩

/-- C1, amended.  In every execution of `applyRecursive`: (i) a return
through `group.Wait()` (the listing reached `Done`) happens only with
every started invocation finished and yields exactly the errgroup's
first-captured operation error, or nil; (ii) the captured first error
is always a genuine error of a failing `fn` invocation; (iii) the
`context.Canceled` return from a failed `sem.Acquire` can only follow a
genuine earlier operation failure.  The mid-listing-error and
failed-acquisition paths return without waiting for in-flight
invocations and may mask the first observed error (see the
counterexample). -/
theorem c1_apply_recursive_amended (n : Int) (fails : String → Bool)
    (evs : List IterEvent) (steps : List Step) :
    (∀ r, (runApply n fails evs steps).phase = Phase.waiting →
        (runApply n fails evs steps).retVal = some r →
        (runApply n fails evs steps).inFlight = [] ∧
          r = (runApply n fails evs steps).firstErr) ∧
    (∀ e, (runApply n fails evs steps).firstErr = some e →
        ∃ k, e = GoErr.opErr k ∧ fails k = true) ∧
    ((runApply n fails evs steps).retVal = some (some GoErr.ctxCanceled) →
      (runApply n fails evs steps).canceled = true) :=
  runApply_retInv n fails evs steps

/-- Witness for C1's amended theorem: a normal run (one failing object,
listing exhausted, joined) returns through `Wait` with nothing in
flight and the op's error captured first. -/
theorem c1_apply_recursive_witness :
    (runApply 2 (fun _ => true) [IterEvent.item "k1", IterEvent.doneEv]
        [Step.next, Step.finish "k1", Step.next, Step.wait]).inFlight = [] ∧
      some (GoErr.opErr "k1")
        = (runApply 2 (fun _ => true) [IterEvent.item "k1", IterEvent.doneEv]
            [Step.next, Step.finish "k1", Step.next, Step.wait]).firstErr :=
  (c1_apply_recursive_amended 2 (fun _ => true)
      [IterEvent.item "k1", IterEvent.doneEv]
      [Step.next, Step.finish "k1", Step.next, Step.wait]).1
    (some (GoErr.opErr "k1")) (by decide) (by decide)

/-- With non-positive concurrency and a nonempty listing, no transition
of the machine can fire: `sem.Acquire(ctx, 1)` with `1 > capacity`
waits for the context, which is never cancelled since no operation ever
starts. -/
theorem applyStep_stuck_of_nonpos (n : Int) (fails : String → Bool)
    (k : String) (evs : List IterEvent) (st : Step) (hn : n ≤ 0) :
    applyStep n fails (initState (IterEvent.item k :: evs)) st
      = initState (IterEvent.item k :: evs) := by
  have hlt : ¬ ((0 : Nat) : Int) < n := by omega
  cases st with
  | next =>
    simp [applyStep, initState, hlt]
    omega
  | nextCancel => simp [applyStep, initState]
  | finish k2 => simp [applyStep, initState]
  | wait => simp [applyStep, initState]

/-- With non-positive concurrency and a nonempty listing the machine
stays in its initial state forever. -/
theorem runApply_stuck (n : Int) (fails : String → Bool) (k : String)
    (evs : List IterEvent) (steps : List Step) (hn : n ≤ 0) :
    runApply n fails (IterEvent.item k :: evs) steps
      = initState (IterEvent.item k :: evs) := by
  induction steps with
  | nil => rfl
  | cons st rest ih =>
    unfold runApply at ih ⊢
    simp only [List.foldl_cons]
    rw [applyStep_stuck_of_nonpos n fails k evs st hn]
    exact ih

/-- C4, counterexample.  `applyRecursive` performs no validation of the
concurrency argument and the code has no `ConfigError` at all: with
concurrency 0 the listing is issued and, over an empty listing, the
call returns nil (success), not a `ConfigError`. -/
theorem c4_counterexample :
    (runApply 0 (fun _ => false) [IterEvent.doneEv]
      [Step.next, Step.wait]).retVal = some none := by decide

/-- C4, amended.  `applyRecursive` does not validate its concurrency
argument: with `N ≤ 0` it still issues the listing; over an empty
listing it returns nil, and over a nonempty listing the first
`sem.Acquire(ctx, 1)` (weight 1 exceeds the semaphore capacity) blocks
until the shared context is cancelled, which never happens because no
operation ever starts, so the call never returns and never submits any
operation. -/
theorem c4_no_validation_amended (n : Int) (fails : String → Bool) (k : String)
    (evs : List IterEvent) (steps : List Step) (hn : n ≤ 0) :
    (runApply n fails (IterEvent.item k :: evs) steps).retVal = none ∧
      (runApply n fails (IterEvent.item k :: evs) steps).started = [] := by
  rw [runApply_stuck n fails k evs steps hn]
  exact ⟨rfl, rfl⟩

/-- Witness for C4's amended theorem at concurrency 0 over the listing
`["a"]`. -/
theorem c4_no_validation_witness :
    (runApply 0 (fun _ => false) [IterEvent.item "a", IterEvent.doneEv]
        [Step.next, Step.next, Step.wait]).retVal = none :=
  (c4_no_validation_amended 0 (fun _ => false) "a" [IterEvent.doneEv]
    [Step.next, Step.next, Step.wait] (by decide)).1

/-- C2.  `List` and `listRecursive` (hence `MatchFilenamesRecursive`)
normalize their prefix at entry, but `applyRecursive` (hence `Delete`
and `GetDirectory`) does not: it queries the backend with the raw
prefix, so `Delete("a")` over a bucket containing only `ab.txt` lists,
submits and deletes `ab.txt`, a key outside the directory `a/`, while
the normalized traversal of the same prefix visits nothing.  This
contradicts `Delete`'s own documentation ("deletes path [and]
everything under path"). -/
theorem c2_apply_recursive_raw_prefix :
    recursiveEvents "a" ["ab.txt"] = [IterEvent.item "ab.txt", IterEvent.doneEv] ∧
    (applyRecursiveRun "a" 128 (fun _ => false) ["ab.txt"]
        [Step.next, Step.finish "ab.txt", Step.next, Step.wait]).started
      = ["ab.txt"] ∧
    (applyRecursiveRun "a" 128 (fun _ => false) ["ab.txt"]
        [Step.next, Step.finish "ab.txt", Step.next, Step.wait]).retVal
      = some none ∧
    normalizeDir "a" = "a/" ∧
    goHasPfx "ab.txt" (normalizeDir "a") = false ∧
    (listRecursiveRun "bkt" "a" (fun _ => true) ["ab.txt"]).1 = [] :=
  ⟨by decide, by decide, by decide, by decide, by decide, by decide⟩

/-- C7.  `applyRecursive` lists the raw `storageDir` as a string prefix,
so `GetDirectory("a", "/tmp/out")` over a bucket containing `ab.txt`
visits that key; the operation unit computes `filepath.Rel("a",
"ab.txt") = "../ab.txt"` and creates `/tmp/ab.txt`, which lies outside
`localDir` - refuting the claim that every created file lies inside
`localDir`.  A key properly under the directory, such as `a/c/d.txt`,
lands inside `localDir` as expected. -/
theorem c7_get_directory_escape :
    goHasPfx "ab.txt" "a" = true ∧
    recursiveEvents "a" ["ab.txt", "a/c/d.txt"]
      = [IterEvent.item "ab.txt", IterEvent.item "a/c/d.txt", IterEvent.doneEv] ∧
    goRel "a" "ab.txt" = some "../ab.txt" ∧
    getDirectoryLocalPath "a" "/tmp/out" "ab.txt" = some "/tmp/ab.txt" ∧
    underDir "/tmp/out" "/tmp/ab.txt" = false ∧
    getDirectoryLocalPath "a" "/tmp/out" "a/c/d.txt" = some "/tmp/out/c/d.txt" ∧
    underDir "/tmp/out" "/tmp/out/c/d.txt" = true :=
  ⟨by decide, by decide, by decide, by decide, by decide, by decide, by decide⟩

/-- A key under directory `d` yields an object record (rather than a
synthetic directory record) exactly when its remainder has no slash. -/
theorem subDirOf_none_iff (d k : String) :
    subDirOf d k = none ↔ (k.data.drop d.data.length).contains '/' = false := by
  cases hc : (k.data.drop d.data.length).contains '/' <;>
    simp_all [subDirOf]

theorem shallowListAux_name_mem (d : String) (ns : List String) (s : String) :
    ∀ seen, s ∈ (shallowListAux d ns seen).map ObjectAttrs.name →
      s = "" ∨ (s ∈ ns ∧ immediateChild d s) := by
  induction ns with
  | nil => intro seen h; simp [shallowListAux] at h
  | cons k rest ih =>
    intro seen h
    simp only [shallowListAux] at h
    split at h
    · rename_i hpfx
      split at h
      · rename_i hsub
        simp only [List.map_cons, List.mem_cons] at h
        rcases h with heq | htail
        · subst heq
          exact Or.inr ⟨List.mem_cons_self _ _,
            ⟨hpfx, (subDirOf_none_iff d s).mp hsub⟩⟩
        · rcases ih seen htail with he | ⟨hm, hc⟩
          · exact Or.inl he
          · exact Or.inr ⟨List.mem_cons_of_mem _ hm, hc⟩
      · rename_i m hsub
        split at h
        · rcases ih seen h with he | ⟨hm, hc⟩
          · exact Or.inl he
          · exact Or.inr ⟨List.mem_cons_of_mem _ hm, hc⟩
        · simp only [List.map_cons, List.mem_cons] at h
          rcases h with heq | htail
          · exact Or.inl heq
          · rcases ih (m :: seen) htail with he | ⟨hm, hc⟩
            · exact Or.inl he
            · exact Or.inr ⟨List.mem_cons_of_mem _ hm, hc⟩
    · rcases ih seen h with he | ⟨hm, hc⟩
      · exact Or.inl he
      · exact Or.inr ⟨List.mem_cons_of_mem _ hm, hc⟩

theorem shallowListAux_name_complete (d : String) (ns : List String) (s : String)
    (hmem : s ∈ ns) (hchild : immediateChild d s) :
    ∀ seen, s ∈ (shallowListAux d ns seen).map ObjectAttrs.name := by
  induction ns with
  | nil => simp at hmem
  | cons k rest ih =>
    intro seen
    rcases List.mem_cons.mp hmem with heq | htail
    · subst heq
      simp only [shallowListAux, hchild.1,
        (subDirOf_none_iff d s).mpr hchild.2, if_true]
      simp
    · simp only [shallowListAux]
      split
      · split
        · simp only [List.map_cons, List.mem_cons]
          exact Or.inr (ih htail seen)
        · split
          · exact ih htail seen
          · rename_i m hsub hseen
            simp only [List.map_cons, List.mem_cons]
            exact Or.inr (ih htail (m :: seen))
      · exact ih htail seen

/-- C6, amended.  `List(dir)` returns `attrs.Name` of every record of
the delimited listing: every returned string is either a key of the
bucket that is an immediate child object of the normalized `dir`, or
the empty string standing for a synthetic subdirectory record (whose
`Prefix` field, e.g. `a/c/`, is never returned because `Name` is empty
on such records); and every immediate child key is returned. -/
theorem c6_list_characterization (ns : List String) (dir : String) :
    (∀ s, s ∈ gcsList ns dir →
        s = "" ∨ (s ∈ ns ∧ immediateChild (normalizeDir dir) s)) ∧
    (∀ s, s ∈ ns → immediateChild (normalizeDir dir) s → s ∈ gcsList ns dir) :=
  ⟨fun s h => shallowListAux_name_mem (normalizeDir dir) ns s [] h,
   fun s h1 h2 => shallowListAux_name_complete (normalizeDir dir) ns s h1 h2 []⟩

/-- Witness for C6's amended theorem: `a/e.txt` is an immediate child of
`a/` and is returned by `List("a")`. -/
theorem c6_list_characterization_witness :
    "a/e.txt" ∈ gcsList ["a/b.txt", "a/c/d.txt", "a/e.txt"] "a" :=
  (c6_list_characterization ["a/b.txt", "a/c/d.txt", "a/e.txt"] "a").2
    "a/e.txt" (by decide) (by decide)

/-- C6, counterexample.  Over the namespace `{a/b.txt, a/c/d.txt,
a/e.txt}`, `List("a")` returns `["a/b.txt", "", "a/e.txt"]`: the
subdirectory appears as an empty string (`attrs.Name` of a synthetic
directory record), not as the claimed prefix marker `a/c/`. -/
theorem c6_list_counterexample :
    gcsList ["a/b.txt", "a/c/d.txt", "a/e.txt"] "a" = ["a/b.txt", "", "a/e.txt"] ∧
      (gcsList ["a/b.txt", "a/c/d.txt", "a/e.txt"] "a").contains "a/c/" = false :=
  ⟨by decide, by decide⟩

/-- C8.  `Get` returns a `NotExistError` exactly when opening the reader
reports `storage.ErrObjectNotExist`; with no transient backend fault it
returns exactly the stored bytes of an existing key; and every other
failure is an error whose message carries the full remote path
`gs://bucket/path`. -/
theorem c8_get_spec (bucket : String) (be : Backend) (path : String) :
    ((∃ m, gcsGet bucket be path = GetResult.notExist m) ↔
        openOutcome be path = OpenOutcome.objNotExist) ∧
    (∀ d, be.openErr path = none → be.readErr path = none →
        be.store path = some d → gcsGet bucket be path = GetResult.ok d) ∧
    (∀ m, gcsGet bucket be path = GetResult.fail m →
        ∃ pre post, m = pre ++ ("gs://" ++ bucket ++ "/" ++ path) ++ post) := by
  refine ⟨?_, ?_, ?_⟩
  · constructor
    · rintro ⟨m, hm⟩
      unfold gcsGet at hm
      cases hoo : openOutcome be path
      case okData d =>
        rw [hoo] at hm
        cases hr : be.readErr path <;> rw [hr] at hm <;> simp at hm
      case objNotExist => rfl
      case openFail e =>
        rw [hoo] at hm
        simp at hm
    · intro hoo
      unfold gcsGet
      rw [hoo]
      exact ⟨_, rfl⟩
  · intro d ho hr hs
    unfold gcsGet openOutcome
    rw [ho, hs, hr]
  · intro m hm
    unfold gcsGet at hm
    cases hoo : openOutcome be path <;> rw [hoo] at hm
    · rename_i d
      cases hr : be.readErr path <;> rw [hr] at hm
      · simp at hm
      · rename_i e
        refine ⟨"Failed to read ", ", got error: " ++ e, ?_⟩
        have hmm : m = "Failed to read " ++ ("gs://" ++ bucket ++ "/" ++ path)
            ++ ", got error: " ++ e := by
          injection hm with hh
          exact hh.symm
        rw [hmm, String.append_assoc]
    · simp at hm
    · rename_i e
      refine ⟨"Failed to open ", ", got error: " ++ e, ?_⟩
      have hmm : m = "Failed to open " ++ ("gs://" ++ bucket ++ "/" ++ path)
          ++ ", got error: " ++ e := by
        injection hm with hh
        exact hh.symm
      rw [hmm, String.append_assoc]

def exampleBackend : Backend where
  store := fun k => if k == "model.pkl" then some [1, 2, 3] else none
  openErr := fun _ => none
  readErr := fun _ => none

/-- Witness for C8's theorem: a fault-free backend storing `[1,2,3]` at
`model.pkl`. -/
theorem c8_get_spec_witness :
    gcsGet "bkt" exampleBackend "model.pkl" = GetResult.ok [1, 2, 3] :=
  (c8_get_spec "bkt" exampleBackend "model.pkl").2.1 [1, 2, 3] rfl rfl (by decide)

/-- C9, counterexample.  `Put` and `PutDirectory` return nil while
performing no operation: both leave the bucket unchanged and report
success, refuting "neither ever returns nil (silent success) while
performing no operation". -/
theorem c9_put_counterexample :
    gcsPut [] "weights.h5" [1, 2, 3] = ([], none) ∧
      gcsPutDirectory [("k", [1])] "local" "remote" = ([("k", [1])], none) :=
  ⟨rfl, rfl⟩

/-- C9, amended.  `Put` and `PutDirectory` are `// TODO` stubs: for
every input they perform no operation and return nil; no
`ErrNotImplemented` (or any error) is ever surfaced. -/
theorem c9_put_noop_amended (store : List (String × List Nat))
    (path localPath storagePath : String) (data : List Nat) :
    gcsPut store path data = (store, none) ∧
      gcsPutDirectory store localPath storagePath = (store, none) :=
  ⟨rfl, rfl⟩

end Keepsake
